import Mathlib

/-!
Verification of the connector-configuration schema parser
(`src/helpers/connectorConfig/specParser.tsx`).

The TypeScript source is shallowly embedded: JSON-ish runtime values become
the inductive `Json`, the input schema documents become `AirbyteSpec` /
`AirbyteProperty`, the output descriptors become `FormField` / `FieldGroup`,
and each source function is translated to a Lean function of the same name.
Thrown JavaScript exceptions are modelled with `Except String`; the only
throw sites in the source are the two `Object.entries` applications that can
receive `undefined`.  JavaScript's `Array.prototype.sort` (stable since
ES2019) is modelled as a stable insertion sort: an element is inserted
before the first element of the already-sorted prefix that compares
strictly greater, which preserves the encounter order of elements that
compare equal or incomparable.  `String.prototype.localeCompare` is
modelled as codepoint-lexicographic comparison, and JavaScript object-key
iteration order is modelled by the order of an association list.
-/

/-- A JSON-ish runtime value (JavaScript numbers restricted to integers,
which is all the schemas under consideration use). -/
inductive Json where
  | null
  | bool (b : Bool)
  | num (n : Int)
  | str (s : String)
  | arr (elems : List Json)
  | obj (entries : List (String × Json))

mutual

/-- JavaScript strict equality (`===`) on primitive-ish values; on arrays and
objects the source only ever compares discriminant const values, which are
primitives in every real schema, so structural equality is used. -/
def Json.beq : Json → Json → Bool
  | .null, .null => true
  | .bool a, .bool b => a == b
  | .num a, .num b => a == b
  | .str a, .str b => a == b
  | .arr xs, .arr ys => Json.beqList xs ys
  | .obj xs, .obj ys => Json.beqPairs xs ys
  | _, _ => false

def Json.beqList : List Json → List Json → Bool
  | [], [] => true
  | x :: xs, y :: ys => Json.beq x y && Json.beqList xs ys
  | _, _ => false

def Json.beqPairs : List (String × Json) → List (String × Json) → Bool
  | [], [] => true
  | (k1, v1) :: xs, (k2, v2) :: ys => k1 == k2 && Json.beq v1 v2 && Json.beqPairs xs ys
  | _, _ => false

end

/-- JavaScript strict equality lifted to possibly-`undefined` values. -/
def optJsonBeq : Option Json → Option Json → Bool
  | none, none => true
  | some a, some b => Json.beq a b
  | _, _ => false

/-- JavaScript truthiness of a value. -/
def jsTruthy : Json → Bool
  | .null => false
  | .bool b => b
  | .num n => n != 0
  | .str s => s != ""
  | .arr _ => true
  | .obj _ => true

/-- JavaScript truthiness of a possibly-`undefined` string. -/
def optStrTruthy : Option String → Bool
  | some s => s != ""
  | none => false

/-- `s || d` for a possibly-`undefined` string `s` (used for
`prop.title || key` and similar fallbacks in the source). -/
def jsOr (s : Option String) (d : String) : String :=
  match s with
  | some v => if v != "" then v else d
  | none => d

mutual

/-- JavaScript string coercion as performed by template literals
(`` `${v}` ``): arrays join their elements with commas, `null` elements of
an array render empty. -/
def jsToString : Json → String
  | .null => "null"
  | .bool b => if b then "true" else "false"
  | .num n => toString n
  | .str s => s
  | .arr xs => jsToStringList xs
  | .obj _ => "[object Object]"

def jsToStringList : List Json → String
  | [] => ""
  | [x] =>
    match x with
    | .null => ""
    | x => jsToString x
  | x :: y :: rest =>
    (match x with
     | .null => ""
     | x => jsToString x) ++ "," ++ jsToStringList (y :: rest)

end

/-- `path.join('.')`. -/
def joinDot (path : List String) : String := String.intercalate "." path

/-- Codepoint-lexicographic strict order on character lists. -/
def charListLt : List Char → List Char → Bool
  | [], [] => false
  | [], _ :: _ => true
  | _ :: _, [] => false
  | c1 :: r1, c2 :: r2 => if c1 < c2 then true else if c2 < c1 then false else charListLt r1 r2

/-- `a.localeCompare(b)`, modelled as codepoint-lexicographic comparison. -/
def localeCompare (a b : String) : Int :=
  if charListLt a.data b.data then -1 else if charListLt b.data a.data then 1 else 0

/-- The scalar (non-recursive) attributes of an input `AirbyteProperty`.
Absent (`undefined`) attributes are `none`; boolean flags conflate
`undefined` with `false` exactly as the source's truthiness tests do. -/
structure PropScalars where
  type : Option String := none
  title : Option String := none
  description : Option String := none
  order : Option Int := none
  group : Option String := none
  airbyte_hidden : Bool := false
  airbyte_secret : Bool := false
  default : Option Json := none
  examples : Option Json := none
  pattern : Option String := none
  pattern_descriptor : Option String := none
  multiline : Bool := false
  enum : Option (List Json) := none
  format : Option String := none
  minimum : Option Int := none
  maximum : Option Int := none
  always_show : Bool := false
  display_type : Option String := none
  const : Option Json := none

/-- An input property node (`AirbyteProperty` in the source); oneOf variant
schemas reuse the same shape, as they do in the source's types. -/
inductive AirbyteProperty where
  | mk (scalars : PropScalars)
       (oneOf : Option (List AirbyteProperty))
       (items : Option AirbyteProperty)
       (properties : Option (List (String × AirbyteProperty)))
       (required : Option (List String))

def AirbyteProperty.scalars : AirbyteProperty → PropScalars
  | .mk s _ _ _ _ => s

def AirbyteProperty.oneOf : AirbyteProperty → Option (List AirbyteProperty)
  | .mk _ o _ _ _ => o

def AirbyteProperty.items : AirbyteProperty → Option AirbyteProperty
  | .mk _ _ i _ _ => i

def AirbyteProperty.properties : AirbyteProperty → Option (List (String × AirbyteProperty))
  | .mk _ _ _ p _ => p

def AirbyteProperty.required : AirbyteProperty → Option (List String)
  | .mk _ _ _ _ r => r

/-- A declared presentation group of the root schema. -/
structure SpecGroup where
  id : String
  title : Option String := none

/-- The root schema document (`AirbyteSpec` in the source); `properties`
is optional because the source dereferences it without checking. -/
structure AirbyteSpec where
  properties : Option (List (String × AirbyteProperty)) := none
  required : Option (List String) := none
  groups : Option (List SpecGroup) := none

/-- One discriminant option of a oneOf field (`constOptions` entries). -/
structure ConstOption where
  value : Json
  title : Json
  description : Option String := none

/-- The scalar attributes of an output `FormField`. -/
structure FieldScalars where
  id : String := ""
  type : Option String := none
  path : List String := []
  title : String := ""
  description : Option String := none
  required : Bool := false
  secret : Bool := false
  hidden : Bool := false
  default : Option Json := none
  examples : Option Json := none
  pattern : Option String := none
  patternDescriptor : Option String := none
  multiline : Bool := false
  enum : Option (List Json) := none
  format : Option String := none
  minimum : Option Int := none
  maximum : Option Int := none
  alwaysShow : Bool := false
  order : Option Int := none
  group : Option String := none
  displayType : Option String := none
  constKey : Option String := none
  parentValue : Option Json := none
  itemType : Option String := none

/-- An output field descriptor (`FormField` in the source). -/
inductive FormField where
  | mk (scalars : FieldScalars)
       (constOptions : Option (List ConstOption))
       (subFields : Option (List FormField))

def FormField.scalars : FormField → FieldScalars
  | .mk s _ _ => s

def FormField.constOptions : FormField → Option (List ConstOption)
  | .mk _ c _ => c

def FormField.subFields : FormField → Option (List FormField)
  | .mk _ _ f => f

def FormField.id (f : FormField) : String := f.scalars.id

def FormField.type (f : FormField) : Option String := f.scalars.type

def FormField.path (f : FormField) : List String := f.scalars.path

def FormField.required (f : FormField) : Bool := f.scalars.required

def FormField.hidden (f : FormField) : Bool := f.scalars.hidden

def FormField.default (f : FormField) : Option Json := f.scalars.default

def FormField.order (f : FormField) : Option Int := f.scalars.order

def FormField.group (f : FormField) : Option String := f.scalars.group

def FormField.parentValue (f : FormField) : Option Json := f.scalars.parentValue

def FormField.itemType (f : FormField) : Option String := f.scalars.itemType

/-- An output group (`FieldGroup` in the source). -/
structure FieldGroup where
  id : String
  title : Option String := none
  fields : List FormField := []

/-- `a.path[a.path.length - 1] || ''`. -/
def lastPathSegment (f : FormField) : String := (f.path.getLast?).getD ""

/-- The comparator body of `sortFieldsByAirbyteRules` (the arrow function
passed to `fields.sort`). -/
def airbyteCompare (a b : FormField) : Int :=
  match a.order, b.order with
  | some ao, some bo => ao - bo
  | some _, none => -1
  | none, some _ => 1
  | none, none =>
    if a.required && !b.required then -1
    else if !a.required && b.required then 1
    else localeCompare (lastPathSegment a) (lastPathSegment b)

/-- The comparator body of `sortOneOfSubFields`: fields with different
`parentValue`s compare equal (return 0), otherwise the Airbyte rules are
applied (the source inlines the same logic a second time). -/
def oneOfSubCompare (a b : FormField) : Int :=
  if !(optJsonBeq a.parentValue b.parentValue) then 0
  else
    match a.order, b.order with
    | some ao, some bo => ao - bo
    | some _, none => -1
    | none, some _ => 1
    | none, none =>
      if a.required && !b.required then -1
      else if !a.required && b.required then 1
      else localeCompare (lastPathSegment a) (lastPathSegment b)

/-- Insert one element into an already-sorted prefix: it lands before the
first element that it compares strictly less than, i.e. after everything it
ties with — the placement a stable sort gives a later-encountered element. -/
def insertSorted (cmp : α → α → Int) (x : α) : List α → List α
  | [] => [x]
  | y :: ys => if cmp x y < 0 then x :: y :: ys else y :: insertSorted cmp x ys

/-- Fold the elements of a list, in encounter order, into a sorted
accumulator. -/
def insertAll (cmp : α → α → Int) : List α → List α → List α
  | acc, [] => acc
  | acc, x :: xs => insertAll cmp (insertSorted cmp x acc) xs

/-- Stable sort by a three-way comparator: the model of JavaScript's
`Array.prototype.sort`. -/
def stableSort (cmp : α → α → Int) (l : List α) : List α :=
  insertAll cmp [] l

/-- `sortFieldsByAirbyteRules` from the source (the in-place `.sort` is
re-expressed as a pure function). -/
def sortFieldsByAirbyteRules (fields : List FormField) : List FormField :=
  stableSort airbyteCompare fields

/-- `sortOneOfSubFields` from the source. -/
def sortOneOfSubFields (subFields : List FormField) : List FormField :=
  stableSort oneOfSubCompare subFields

/-- The error value of a JavaScript `Object.entries(undefined)` call. -/
def jsTypeError : String := "TypeError: Cannot convert undefined or null to object"

/-- `Object.entries(option.properties).find(([_, p]) => p.const)`:
the first property entry whose `const` attribute is truthy, returned
together with that const value. -/
def findConstEntry : List (String × AirbyteProperty) → Option (String × Json)
  | [] => none
  | (k, p) :: rest =>
    match p with
    | .mk s _ _ _ _ =>
      match s.const with
      | some v => if jsTruthy v then some (k, v) else findConstEntry rest
      | none => findConstEntry rest

/-- The two mutations `subField.parentValue = constValue` and
`subField.id = ...` performed on a freshly built variant subfield. -/
def setParentAndId (f : FormField) (constValue : Json) (newId : String) : FormField :=
  match f with
  | .mk s co sf => .mk { s with parentValue := some constValue, id := newId } co sf

/-- `parseBasicField` from the source. -/
def parseBasicField (key : String) (prop : AirbyteProperty) (path : List String)
    (isRequired : Bool) : FormField :=
  .mk
    { id := joinDot path
      type := prop.scalars.type
      path := path
      title := jsOr prop.scalars.title key
      description := prop.scalars.description
      required := isRequired
      secret := prop.scalars.airbyte_secret
      hidden := prop.scalars.airbyte_hidden
      default := prop.scalars.default
      examples := prop.scalars.examples
      pattern := prop.scalars.pattern
      patternDescriptor := prop.scalars.pattern_descriptor
      multiline := prop.scalars.multiline
      enum := prop.scalars.enum
      format := prop.scalars.format
      minimum := prop.scalars.minimum
      maximum := prop.scalars.maximum
      alwaysShow := prop.scalars.always_show
      order := prop.scalars.order
      group := prop.scalars.group }
    none
    none

mutual

/-- `parseOneOfField` from the source: resolve a discriminated union into a
single oneOf-kind field carrying discriminant options and sorted, tagged
variant subfields. -/
def parseOneOfField (key : String) (prop : AirbyteProperty) (path : List String)
    (isRequired : Bool) : Except String FormField :=
  match prop with
  | .mk s oneOf _ _ _ => do
    let st ←
      match oneOf with
      | some opts => parseOneOfLoop opts path none [] []
      | none => .ok (none, [], [])
    match st with
    | (constKey, constOptions, subFields) =>
      .ok (.mk
        { id := joinDot path
          type := some "object"
          path := path
          title := jsOr s.title key
          description := s.description
          required := isRequired
          hidden := s.airbyte_hidden
          displayType := some (jsOr s.display_type "dropdown")
          constKey := constKey
          order := s.order
          group := s.group }
        (some constOptions)
        (some (sortOneOfSubFields subFields)))

/-- The `prop.oneOf?.forEach((option) => ...)` loop of `parseOneOfField`,
with its three accumulators (`constKey`, `constOptions`, `subFields`) made
explicit.  A variant without a `properties` mapping throws (the source's
`Object.entries(option.properties)`); a variant without a truthy `const`
property contributes nothing. -/
def parseOneOfLoop (options : List AirbyteProperty) (path : List String)
    (constKey : Option String) (constOptions : List ConstOption)
    (subFields : List FormField) :
    Except String (Option String × List ConstOption × List FormField) :=
  match options with
  | [] => .ok (constKey, constOptions, subFields)
  | option :: rest =>
    match option with
    | .mk os _ _ oprops oreq =>
      match oprops with
      | none => .error jsTypeError
      | some props =>
        match findConstEntry props with
        | none => parseOneOfLoop rest path constKey constOptions subFields
        | some (fieldConstKey, constValue) => do
          let constKey1 := if optStrTruthy constKey then constKey else some fieldConstKey
          let newOption : ConstOption :=
            { value := constValue
              title :=
                match os.title with
                | some t => if t != "" then Json.str t else constValue
                | none => constValue
              description := os.description }
          let subs ← parseVariantProps props fieldConstKey constValue path (oreq.getD [])
          parseOneOfLoop rest path constKey1 (constOptions ++ [newOption]) (subFields ++ subs)

/-- The inner `Object.entries(option.properties).forEach` loop of
`parseOneOfField`: build a subfield for every variant property other than
the discriminant, recursing for nested unions, then tag it with the
variant's const value and the collision-free id. -/
def parseVariantProps (entries : List (String × AirbyteProperty))
    (fieldConstKey : String) (constValue : Json) (path : List String)
    (optionRequired : List String) : Except String (List FormField) :=
  match entries with
  | [] => .ok []
  | (propKey, propDef) :: rest =>
    if propKey == fieldConstKey then
      parseVariantProps rest fieldConstKey constValue path optionRequired
    else do
      let subFieldPath := path ++ [propKey]
      let subField ←
        match propDef with
        | .mk _ (some _) _ _ _ =>
          parseOneOfField propKey propDef subFieldPath (optionRequired.contains propKey)
        | .mk _ none _ _ _ =>
          .ok (parseBasicField propKey propDef subFieldPath (optionRequired.contains propKey))
      let subField1 := setParentAndId subField constValue
        (joinDot path ++ "." ++ jsToString constValue ++ "." ++ propKey)
      let restFields ← parseVariantProps rest fieldConstKey constValue path optionRequired
      .ok (subField1 :: restFields)

end

/-- The record returned by `parseArrayField` (everything except the
recursive computation of the item subfields, passed in as `subFields`). -/
def buildArrayField (key : String) (prop : AirbyteProperty) (path : List String)
    (isRequired : Bool) (subFields : List FormField) : FormField :=
  .mk
    { id := joinDot path
      type := some "array"
      path := path
      title := jsOr prop.scalars.title key
      description := prop.scalars.description
      required := isRequired
      hidden := prop.scalars.airbyte_hidden
      default := some
        (match prop.scalars.default with
         | some v => if jsTruthy v then v else Json.arr []
         | none => Json.arr [])
      itemType := some
        (match prop.items with
         | some it => jsOr it.scalars.type "string"
         | none => "string")
      order := prop.scalars.order
      group := prop.scalars.group }
    none
    (some subFields)

mutual

/-- The body of the `for (const [key, prop] of Object.entries(properties))`
loop of `parseProperties`, extracted as a function returning the fields the
iteration contributes: nothing for a hidden property, one field for a
oneOf / array / basic property, or the spliced nested fields for an
object-shaped property. -/
def parsePropStep (key : String) (prop : AirbyteProperty) (parentPath : List String)
    (required : List String) : Except String (List FormField) :=
  match prop with
  | .mk s oneOf items props preq =>
    if s.airbyte_hidden then .ok []
    else
      let path := parentPath ++ [key]
      match oneOf with
      | some _ =>
        match parseOneOfField key prop path (required.contains key) with
        | .ok f => .ok [f]
        | .error e => .error e
      | none =>
        if s.type == some "array" && items.isSome then
          match parseArrayField key (.mk s none items props preq) path (required.contains key) with
          | .ok f => .ok [f]
          | .error e => .error e
        else if s.type == some "object" && props.isSome then
          match props with
          | some ps => parseProperties ps path (preq.getD [])
          | none => .ok []
        else .ok [parseBasicField key prop path (required.contains key)]
termination_by (sizeOf prop, 1)
decreasing_by
  all_goals simp_wf
  all_goals simp [Prod.lex_def]
  all_goals omega

/-- `parseProperties` from the source: walk a properties mapping in
declaration order, skipping hidden entries and dispatching on shape
(each iteration is `parsePropStep`). -/
def parseProperties (properties : List (String × AirbyteProperty))
    (parentPath : List String) (required : List String) :
    Except String (List FormField) :=
  match properties with
  | [] => .ok []
  | (key, prop) :: rest =>
    match parsePropStep key prop parentPath required,
        parseProperties rest parentPath required with
    | .ok nf, .ok fs => .ok (nf ++ fs)
    | .error e, _ => .error e
    | _, .error e => .error e
termination_by (sizeOf properties, 0)
decreasing_by
  all_goals simp_wf
  all_goals simp [Prod.lex_def]
  all_goals omega

/-- `parseArrayField` from the source: arrays of object-shaped items get
recursively parsed, sorted subfields under an index-placeholder path
segment; arrays of primitive items get only an `itemType` tag.  The
returned record is `buildArrayField`, applied at each control-flow leaf. -/
def parseArrayField (key : String) (prop : AirbyteProperty) (path : List String)
    (isRequired : Bool) : Except String FormField :=
  match prop with
  | .mk _ _ items _ _ =>
    match items with
    | some (.mk is1 _ _ iprops ireq) =>
      if is1.type == some "object" && iprops.isSome then
        match iprops with
        | some ps =>
          match parseProperties ps (path ++ ["0"]) (ireq.getD []) with
          | .ok sf => .ok (buildArrayField key prop path isRequired (sortFieldsByAirbyteRules sf))
          | .error e => .error e
        | none => .ok (buildArrayField key prop path isRequired [])
      else .ok (buildArrayField key prop path isRequired [])
    | none => .ok (buildArrayField key prop path isRequired [])
termination_by (sizeOf prop, 0)
decreasing_by
  all_goals simp_wf
  all_goals simp [Prod.lex_def]
  all_goals omega

end

/-- `parseAirbyteSpec` from the source.  A root document whose `properties`
is absent makes the source's `Object.entries(spec.properties)` (the first
statement of the traversal) throw; that throw is modelled here, at the call
site of `parseProperties`. -/
def parseAirbyteSpec (spec : AirbyteSpec) : Except String (List FieldGroup) := do
  let props ←
    match spec.properties with
    | none => .error jsTypeError
    | some ps => (.ok ps : Except String (List (String × AirbyteProperty)))
  let allFields ← parseProperties props [] (spec.required.getD [])
  match spec.groups with
  | none =>
    .ok [{ id := "default", title := none, fields := sortFieldsByAirbyteRules allFields }]
  | some gs =>
    .ok (gs.map (fun group =>
      { id := group.id
        title := group.title
        fields := sortFieldsByAirbyteRules
          (allFields.filter (fun field => field.group == some group.id)) }))

mutual

/-- `okProperty`/`okProperties`/`okOptions`/`okVariantProps` mirror the
traversal of `parseProperties` and record, as a Boolean, whether it reaches
a oneOf variant whose `properties` mapping is absent — the only condition
(besides a missing root `properties`) that makes the parse throw. -/
def okProperties : List (String × AirbyteProperty) → Bool
  | [] => true
  | (_, prop) :: rest => okProperty prop && okProperties rest
termination_by l => (sizeOf l, 0)
decreasing_by
  all_goals simp_wf
  all_goals simp [Prod.lex_def]
  all_goals omega

def okProperty : AirbyteProperty → Bool
  | .mk s oneOf items props _ =>
    if s.airbyte_hidden then true
    else
      match oneOf with
      | some opts => okOptions opts
      | none =>
        if s.type == some "array" && items.isSome then
          match items with
          | some (.mk is1 _ _ iprops _) =>
            if is1.type == some "object" && iprops.isSome then
              match iprops with
              | some ps => okProperties ps
              | none => true
            else true
          | none => true
        else if s.type == some "object" && props.isSome then
          match props with
          | some ps => okProperties ps
          | none => true
        else true
termination_by prop => (sizeOf prop, 1)
decreasing_by
  all_goals simp_wf
  all_goals simp [Prod.lex_def]
  all_goals omega

def okOptions : List AirbyteProperty → Bool
  | [] => true
  | option :: rest =>
    (match option with
     | .mk _ _ _ none _ => false
     | .mk _ _ _ (some props) _ =>
       match findConstEntry props with
       | none => true
       | some (k, _) => okVariantProps props k) && okOptions rest
termination_by l => (sizeOf l, 0)
decreasing_by
  all_goals simp_wf
  all_goals simp [Prod.lex_def]
  all_goals omega

def okVariantProps : List (String × AirbyteProperty) → String → Bool
  | [], _ => true
  | (propKey, propDef) :: rest, constKey =>
    (if propKey == constKey then true
     else
       match propDef with
       | .mk _ (some opts) _ _ _ => okOptions opts
       | .mk _ none _ _ _ => true) && okVariantProps rest constKey
termination_by l _ => (sizeOf l, 0)
decreasing_by
  all_goals simp_wf
  all_goals simp [Prod.lex_def]
  all_goals omega

end

/-- Whether the root document parses without a throw: `properties` present
and every traversed oneOf variant carries its own `properties` mapping. -/
def okSpec (spec : AirbyteSpec) : Bool :=
  match spec.properties with
  | none => false
  | some ps => okProperties ps

/-- The discriminant entry (const key and value) a oneOf variant exposes,
if any. -/
def variantConst (option : AirbyteProperty) : Option (String × Json) :=
  match option with
  | .mk _ _ _ none _ => none
  | .mk _ _ _ (some props) _ => findConstEntry props

/-- The subfields one oneOf variant contributes (before the final sort):
nothing when it has no truthy const, a throw when its `properties` mapping
is absent, otherwise the tagged fields of `parseVariantProps`. -/
def variantSubFields (option : AirbyteProperty) (path : List String) :
    Except String (List FormField) :=
  match option with
  | .mk _ _ _ none _ => .error jsTypeError
  | .mk _ _ _ (some props) oreq =>
    match findConstEntry props with
    | none => .ok []
    | some (k, v) => parseVariantProps props k v path (oreq.getD [])

/-- The per-variant subfield blocks of a oneOf node, in variant-declaration
order. -/
def variantBlocks : List AirbyteProperty → List String → Except String (List (List FormField))
  | [], _ => .ok []
  | option :: rest, path =>
    match variantSubFields option path, variantBlocks rest path with
    | .ok b, .ok bs => .ok (b :: bs)
    | .error e, _ => .error e
    | _, .error e => .error e

/-- Projection: the ids of a parsed oneOf field's subfields, in order. -/
def subFieldIds (r : Except String FormField) : List String :=
  match r with
  | .ok f => (f.subFields.getD []).map (fun g => g.id)
  | .error _ => []

/-- Projection: id and hidden flag of a parsed oneOf field's subfields. -/
def subFieldHiddenIds (r : Except String FormField) : List (String × Bool) :=
  match r with
  | .ok f => (f.subFields.getD []).map (fun g => (g.id, g.hidden))
  | .error _ => []

/-- Projection: for every group of a parse result, the (id, hidden) pairs of
the subfields of each of the group's fields, flattened. -/
def groupsSubHidden (r : Except String (List FieldGroup)) : List (String × Bool) :=
  match r with
  | .ok gs =>
    (gs.map (fun g =>
      (g.fields.map (fun f => (f.subFields.getD []).map (fun x => (x.id, x.hidden)))).flatten)).flatten
  | .error _ => []

/-- A leaf string property carrying `airbyte_hidden: true`. -/
def cxHiddenLeaf : AirbyteProperty :=
  .mk { type := some "string", airbyte_hidden := true } none none none none

/-- A oneOf variant whose discriminant is `mode: {const: "x"}` and whose
only other property, `secretfield`, is hidden. -/
def cxHiddenVariant : AirbyteProperty :=
  .mk {} none none
    (some [("mode", .mk { type := some "string", const := some (.str "x") } none none none none),
           ("secretfield", cxHiddenLeaf)])
    none

/-- A oneOf property with `cxHiddenVariant` as its only variant. -/
def cxHiddenOneOf : AirbyteProperty :=
  .mk {} (some [cxHiddenVariant]) none none none

/-- A root schema exposing `cxHiddenOneOf` under the key `conn`. -/
def cxHiddenSpec : AirbyteSpec :=
  { properties := some [("conn", cxHiddenOneOf)] }

/-- A root schema whose property `x` is a oneOf with a single variant that
has no `properties` mapping. -/
def cxNoPropsVariantSpec : AirbyteSpec :=
  { properties := some [("x", .mk {} (some [.mk {} none none none none]) none none none)] }

/-- A oneOf variant with discriminant `mode: {const: cv}` and a `password`
string property. -/
def sslVariant (cv : String) : AirbyteProperty :=
  .mk {} none none
    (some [("mode", .mk { type := some "string", const := some (.str cv) } none none none none),
           ("password", .mk { type := some "string" } none none none none)])
    none

/-- A oneOf property with variants `verify-ca` and `disable`, each exposing
a property named `password`. -/
def sslModeOneOf : AirbyteProperty :=
  .mk {} (some [sslVariant "verify-ca", sslVariant "disable"]) none none none

/-- A required, orderless leaf field named by its single path segment. -/
def exLeafField (key : String) (req : Bool) (o : Option Int) : FormField :=
  .mk { id := key, path := [key], required := req, order := o } none none

/-- A concrete array property of primitive (string) items. -/
def exPrimArrayProp : AirbyteProperty :=
  .mk { type := some "array" } none
    (some (.mk { type := some "string" } none none none none)) none none

/-- A concrete array property of object items with properties y (required)
and z (optional). -/
def exObjArrayProp : AirbyteProperty :=
  .mk { type := some "array" } none
    (some (.mk { type := some "object" } none none
      (some [("y", .mk { type := some "string" } none none none none),
             ("z", .mk { type := some "number" } none none none none)])
      (some ["y"])))
    none none

/-- A concrete object property with two leaves, used for the flattening
claim. -/
def exObjectProp : AirbyteProperty :=
  .mk { type := some "object" } none none
    (some [("u", .mk { type := some "string" } none none none none),
           ("w", .mk { type := some "string" } none none none none)])
    (some ["w"])

/-- A root schema with declared groups A and B and three leaves tagged
A, B, and untagged. -/
def exGroupedSpec : AirbyteSpec :=
  { properties := some
      [("a", .mk { type := some "string", group := some "A" } none none none none),
       ("b", .mk { type := some "string", group := some "B" } none none none none),
       ("c", .mk { type := some "string" } none none none none)]
    groups := some [{ id := "A" }, { id := "B" }] }

/-- A root schema without groups: two leaves, one required. -/
def exPlainSpec : AirbyteSpec :=
  { properties := some
      [("port", .mk { type := some "number" } none none none none),
       ("host", .mk { type := some "string" } none none none none)]
    required := some ["host"] }

/-! Generic lemmas about the stable insertion sort. -/

theorem mem_insertSorted {α : Type} {cmp : α → α → Int} {x y : α} {l : List α} :
    y ∈ insertSorted cmp x l ↔ y = x ∨ y ∈ l := by
  induction l with
  | nil => simp [insertSorted]
  | cons z zs ih =>
    by_cases h : cmp x z < 0 <;> (simp [insertSorted, h, ih]; try tauto)

theorem mem_insertAll {α : Type} {cmp : α → α → Int} {y : α} :
    ∀ {l acc : List α}, y ∈ insertAll cmp acc l ↔ y ∈ acc ∨ y ∈ l := by
  intro l
  induction l with
  | nil => intro acc; simp [insertAll]
  | cons x xs ih =>
    intro acc
    simp [insertAll, ih, mem_insertSorted]
    tauto

theorem mem_stableSort {α : Type} {cmp : α → α → Int} {y : α} {l : List α} :
    y ∈ stableSort cmp l ↔ y ∈ l := by
  simp [stableSort, mem_insertAll]

theorem insertAll_append {α : Type} {cmp : α → α → Int} :
    ∀ (l1 : List α) (acc l2 : List α),
      insertAll cmp acc (l1 ++ l2) = insertAll cmp (insertAll cmp acc l1) l2 := by
  intro l1
  induction l1 with
  | nil => intro acc l2; simp [insertAll]
  | cons x xs ih => intro acc l2; simp [insertAll, ih]

theorem insertSorted_append_left {α : Type} {cmp : α → α → Int} {x : α} :
    ∀ {s1 s2 : List α}, (∀ y ∈ s1, ¬ cmp x y < 0) →
      insertSorted cmp x (s1 ++ s2) = s1 ++ insertSorted cmp x s2 := by
  intro s1
  induction s1 with
  | nil => intro s2 _; simp
  | cons y ys ih =>
    intro s2 h
    have hy : ¬ cmp x y < 0 := h y (by simp)
    simp only [List.cons_append, insertSorted, if_neg hy, List.append_eq]
    rw [ih (fun z hz => h z (by simp [hz]))]

theorem insertAll_append_left {α : Type} {cmp : α → α → Int} :
    ∀ {l : List α} {s1 s2 : List α}, (∀ x ∈ l, ∀ y ∈ s1, ¬ cmp x y < 0) →
      insertAll cmp (s1 ++ s2) l = s1 ++ insertAll cmp s2 l := by
  intro l
  induction l with
  | nil => intro s1 s2 _; simp [insertAll]
  | cons x xs ih =>
    intro s1 s2 h
    have hx : ∀ y ∈ s1, ¬ cmp x y < 0 := h x (by simp)
    simp only [insertAll]
    rw [insertSorted_append_left hx, ih (fun z hz y hy => h z (by simp [hz]) y hy)]

theorem stableSort_blocks {α : Type} {cmp : α → α → Int} :
    ∀ {blocks : List (List α)},
      List.Pairwise (fun b1 b2 => ∀ x ∈ b1, ∀ y ∈ b2, cmp y x = 0) blocks →
      stableSort cmp blocks.flatten = (blocks.map (stableSort cmp)).flatten := by
  intro blocks
  induction blocks with
  | nil => intro _; simp [stableSort, insertAll]
  | cons b bs ih =>
    intro hp
    rw [List.pairwise_cons] at hp
    obtain ⟨hb, hbs⟩ := hp
    have step1 : stableSort cmp (b :: bs).flatten
        = insertAll cmp (stableSort cmp b) bs.flatten := by
      simp only [List.flatten_cons, stableSort]
      rw [insertAll_append]
    have hcross : ∀ x ∈ bs.flatten, ∀ y ∈ stableSort cmp b, ¬ cmp x y < 0 := by
      intro x hx y hy
      rw [List.mem_flatten] at hx
      obtain ⟨b2, hb2, hxb2⟩ := hx
      have hy2 : y ∈ b := mem_stableSort.mp hy
      have := hb b2 hb2 y hy2 x hxb2
      omega
    have step2 : insertAll cmp (stableSort cmp b) bs.flatten
        = stableSort cmp b ++ insertAll cmp [] bs.flatten := by
      have := @insertAll_append_left α cmp bs.flatten (stableSort cmp b) [] hcross
      simpa using this
    rw [step1, step2]
    have hrw : insertAll cmp [] bs.flatten = stableSort cmp bs.flatten := rfl
    rw [hrw, ih hbs]
    simp

/-! Lemmas about the oneOf resolution. -/

theorem setParentAndId_parentValue (f : FormField) (v : Json) (i : String) :
    (setParentAndId f v i).parentValue = some v := by
  cases f
  simp [setParentAndId, FormField.parentValue, FormField.scalars]

theorem setParentAndId_id (f : FormField) (v : Json) (i : String) :
    (setParentAndId f v i).id = i := by
  cases f
  simp [setParentAndId, FormField.id, FormField.scalars]

/-- Every subfield built from a variant's properties is tagged with the
variant's const value and carries the id
`{path}.{constValue}.{propertyKey}` for one of the variant's non-const
property keys. -/
theorem parseVariantProps_fields :
    ∀ (entries : List (String × AirbyteProperty)) (k : String) (v : Json)
      (path : List String) (oreq : List String) (fs : List FormField),
      parseVariantProps entries k v path oreq = .ok fs →
      ∀ f ∈ fs, f.parentValue = some v ∧
        ∃ pk pd, (pk, pd) ∈ entries ∧ (pk == k) = false ∧
          f.id = joinDot path ++ "." ++ jsToString v ++ "." ++ pk := by
  intro entries
  induction entries with
  | nil =>
    intro k v path oreq fs h f hf
    simp [parseVariantProps] at h
    subst h
    simp at hf
  | cons e rest ih =>
    intro k v path oreq fs h f hf
    obtain ⟨pk, pd⟩ := e
    by_cases hk : (pk == k) = true
    · simp only [parseVariantProps, if_pos hk] at h
      obtain ⟨hpv, pk2, pd2, hmem, hne, hid⟩ := ih k v path oreq fs h f hf
      exact ⟨hpv, pk2, pd2, by simp [hmem], hne, hid⟩
    · have hkf : (pk == k) = false := by
        cases hpk : (pk == k) with
        | true => exact absurd hpk hk
        | false => rfl
      simp only [parseVariantProps, if_neg hk] at h
      obtain ⟨s2, oo2, ii2, pp2, rr2⟩ := pd
      cases oo2 with
      | some opts =>
        simp only [Bind.bind] at h
        cases hM : parseOneOfField pk (AirbyteProperty.mk s2 (some opts) ii2 pp2 rr2)
            (path ++ [pk]) (oreq.contains pk) with
        | error e2 =>
          rw [hM] at h
          simp [Except.bind] at h
        | ok sub =>
          rw [hM] at h
          cases hR : parseVariantProps rest k v path oreq with
          | error e2 =>
            rw [hR] at h
            simp [Except.bind] at h
          | ok rfs =>
            rw [hR] at h
            simp only [Except.bind, Except.ok.injEq] at h
            subst h
            rcases List.mem_cons.mp hf with hfh | hft
            · subst hfh
              refine ⟨setParentAndId_parentValue _ _ _, pk,
                AirbyteProperty.mk s2 (some opts) ii2 pp2 rr2, by simp, hkf, ?_⟩
              exact setParentAndId_id _ _ _
            · obtain ⟨hpv, pk2, pd2, hmem, hne, hid⟩ := ih k v path oreq rfs hR f hft
              exact ⟨hpv, pk2, pd2, by simp [hmem], hne, hid⟩
      | none =>
        simp only [Bind.bind] at h
        cases hR : parseVariantProps rest k v path oreq with
        | error e2 =>
          rw [hR] at h
          simp [Except.bind] at h
        | ok rfs =>
          rw [hR] at h
          simp only [Except.bind, Except.ok.injEq] at h
          subst h
          rcases List.mem_cons.mp hf with hfh | hft
          · subst hfh
            refine ⟨setParentAndId_parentValue _ _ _, pk,
              AirbyteProperty.mk s2 none ii2 pp2 rr2, by simp, hkf, ?_⟩
            exact setParentAndId_id _ _ _
          · obtain ⟨hpv, pk2, pd2, hmem, hne, hid⟩ := ih k v path oreq rfs hR f hft
            exact ⟨hpv, pk2, pd2, by simp [hmem], hne, hid⟩

/-- The accumulated subfields of the oneOf variant loop are the
concatenation, in variant-declaration order, of the per-variant blocks. -/
theorem parseOneOfLoop_blocks :
    ∀ (opts : List AirbyteProperty) (path : List String) (ck : Option String)
      (co : List ConstOption) (sf : List FormField)
      (st : Option String × List ConstOption × List FormField),
      parseOneOfLoop opts path ck co sf = .ok st →
      ∃ bs, variantBlocks opts path = .ok bs ∧ st.2.2 = sf ++ bs.flatten := by
  intro opts
  induction opts with
  | nil =>
    intro path ck co sf st h
    simp only [parseOneOfLoop, Except.ok.injEq] at h
    subst h
    exact ⟨[], by simp [variantBlocks], by simp⟩
  | cons o rest ih =>
    intro path ck co sf st h
    obtain ⟨os, oo, oi, oprops, oreq⟩ := o
    cases oprops with
    | none => simp [parseOneOfLoop] at h
    | some props =>
      cases hfc : findConstEntry props with
      | none =>
        simp only [parseOneOfLoop, hfc] at h
        obtain ⟨bs, hbs, hsf⟩ := ih path ck co sf st h
        refine ⟨[] :: bs, ?_, by simpa using hsf⟩
        simp [variantBlocks, variantSubFields, hfc, hbs]
      | some kv =>
        obtain ⟨fk, cv⟩ := kv
        simp only [parseOneOfLoop, hfc, Bind.bind] at h
        cases hV : parseVariantProps props fk cv path (oreq.getD []) with
        | error e2 =>
          rw [hV] at h
          simp [Except.bind] at h
        | ok subs =>
          rw [hV] at h
          simp only [Except.bind] at h
          obtain ⟨bs, hbs, hsf⟩ := ih _ _ _ _ _ h
          refine ⟨subs :: bs, ?_, ?_⟩
          · simp [variantBlocks, variantSubFields, hfc, hV, hbs]
          · simp [hsf, List.append_assoc]

/-- Each per-variant block is uniformly tagged with that variant's
discriminant const value. -/
theorem variantBlocks_parentValue :
    ∀ (opts : List AirbyteProperty) (path : List String) (bs : List (List FormField)),
      variantBlocks opts path = .ok bs →
      List.Forall₂ (fun o b => ∀ f ∈ b, ∃ k v, variantConst o = some (k, v) ∧
        f.parentValue = some v) opts bs := by
  intro opts
  induction opts with
  | nil =>
    intro path bs h
    simp only [variantBlocks, Except.ok.injEq] at h
    subst h
    exact List.Forall₂.nil
  | cons o rest ih =>
    intro path bs h
    cases hS : variantSubFields o path with
    | error e => simp [variantBlocks, hS] at h
    | ok b =>
      cases hB : variantBlocks rest path with
      | error e => simp [variantBlocks, hS, hB] at h
      | ok bs2 =>
        simp only [variantBlocks, hS, hB, Except.ok.injEq] at h
        subst h
        refine List.Forall₂.cons ?_ (ih path bs2 hB)
        intro f hf
        obtain ⟨os, oo, oi, oprops, oreq⟩ := o
        cases oprops with
        | none => simp [variantSubFields] at hS
        | some props =>
          cases hfc : findConstEntry props with
          | none =>
            simp only [variantSubFields, hfc, Except.ok.injEq] at hS
            subst hS
            simp at hf
          | some kv =>
            obtain ⟨fk, cv⟩ := kv
            simp only [variantSubFields, hfc] at hS
            have hfld := parseVariantProps_fields props fk cv path (oreq.getD []) b hS f hf
            exact ⟨fk, cv, by simp [variantConst, hfc], hfld.1⟩

theorem forall₂_mem_left {α β : Type} {Q : α → β → Prop} {l1 : List α} {l2 : List β}
    (h : List.Forall₂ Q l1 l2) : ∀ b ∈ l2, ∃ o ∈ l1, Q o b := by
  induction h with
  | nil => simp
  | cons hq ht ih =>
    intro b hb
    rcases List.mem_cons.mp hb with rfl | hb2
    · exact ⟨_, by simp, hq⟩
    · obtain ⟨o, ho, hqo⟩ := ih b hb2
      exact ⟨o, by simp [ho], hqo⟩

theorem pairwise_transfer {α β : Type} {Q : α → β → Prop} {R : α → α → Prop}
    {S : β → β → Prop} {l1 : List α} {l2 : List β}
    (hf : List.Forall₂ Q l1 l2) (hp : List.Pairwise R l1)
    (himp : ∀ o1 o2 b1 b2, Q o1 b1 → Q o2 b2 → R o1 o2 → S b1 b2) :
    List.Pairwise S l2 := by
  induction hf with
  | nil => exact List.Pairwise.nil
  | cons hq ht ih =>
    rw [List.pairwise_cons] at hp
    obtain ⟨hr, hp2⟩ := hp
    refine List.Pairwise.cons ?_ (ih hp2)
    intro b2 hb2
    obtain ⟨o2, ho2, hq2⟩ := forall₂_mem_left ht b2 hb2
    exact himp _ _ _ _ hq hq2 (hr o2 ho2)

/-- Shape of a successfully parsed oneOf field: its path, id and type, and
its subfield list, which is the sorted accumulator of the variant loop. -/
theorem parseOneOfField_ok_shape :
    ∀ {key : String} {prop : AirbyteProperty} {path : List String} {r : Bool}
      {node : FormField},
      parseOneOfField key prop path r = .ok node →
      ∃ st, (match prop.oneOf with
             | some opts => parseOneOfLoop opts path none [] []
             | none => Except.ok ((none : Option String), ([] : List ConstOption),
                 ([] : List FormField))) = .ok st ∧
        node.path = path ∧ node.id = joinDot path ∧ node.type = some "object" ∧
        node.subFields = some (sortOneOfSubFields st.2.2) ∧
        node.constOptions = some st.2.1 ∧ node.required = r := by
  intro key prop path r node h
  obtain ⟨s, oo, ii, pp, rr⟩ := prop
  cases oo with
  | some opts =>
    simp only [parseOneOfField, Bind.bind] at h
    cases hL : parseOneOfLoop opts path none [] [] with
    | error e =>
      rw [hL] at h
      simp [Except.bind] at h
    | ok st =>
      rw [hL] at h
      simp only [Except.bind, Except.ok.injEq] at h
      subst h
      refine ⟨st, by simp [AirbyteProperty.oneOf, hL], ?_⟩
      obtain ⟨ck, co, sfs⟩ := st
      simp [FormField.path, FormField.id, FormField.type, FormField.subFields,
        FormField.constOptions, FormField.required, FormField.scalars]
  | none =>
    simp only [parseOneOfField, Bind.bind, Except.bind, Except.ok.injEq] at h
    subst h
    refine ⟨(none, [], []), by simp [AirbyteProperty.oneOf], ?_⟩
    simp [FormField.path, FormField.id, FormField.type, FormField.subFields,
      FormField.constOptions, FormField.required, FormField.scalars]

/-- An array property whose item schema declares a primitive (non-object,
nonempty) type parses to a node with that `itemType` and no subfields. -/
theorem parseArrayField_primitive :
    ∀ {key : String} {prop : AirbyteProperty} {path : List String} {r : Bool}
      {it : AirbyteProperty} {t : String},
      prop.items = some it → it.scalars.type = some t → t ≠ "object" →
      ∃ node, parseArrayField key prop path r = .ok node ∧
        node.itemType = some (jsOr (some t) "string") ∧
        node.subFields = some [] ∧ node.type = some "array" ∧
        node.path = path ∧ node.required = r := by
  intro key prop path r it t hitems hty hne
  obtain ⟨s, oo, items, pp, rr⟩ := prop
  simp only [AirbyteProperty.items] at hitems
  subst hitems
  obtain ⟨is1, io, ii, iprops, ireq⟩ := it
  simp only [AirbyteProperty.scalars] at hty
  have hbeq : (is1.type == some "object") = false := by
    simp [hty, hne]
  rw [parseArrayField.eq_def]
  simp only [hbeq, Bool.false_and, Bool.false_eq_true, if_false]
  refine ⟨_, rfl, ?_⟩
  simp [buildArrayField, FormField.itemType, FormField.subFields, FormField.type,
    FormField.path, FormField.required, FormField.scalars, AirbyteProperty.scalars,
    AirbyteProperty.items, hty]

/-- An array property whose item schema is object-shaped with its own
properties parses to a node whose subfields are the item properties parsed
under the index-placeholder path segment with the item's own required set,
sorted by the sibling rules. -/
theorem parseArrayField_object :
    ∀ {key : String} {prop : AirbyteProperty} {path : List String} {r : Bool}
      {it : AirbyteProperty} {ps : List (String × AirbyteProperty)}
      {sf : List FormField},
      prop.items = some it → it.scalars.type = some "object" →
      it.properties = some ps →
      parseProperties ps (path ++ ["0"]) (it.required.getD []) = .ok sf →
      ∃ node, parseArrayField key prop path r = .ok node ∧
        node.subFields = some (sortFieldsByAirbyteRules sf) ∧
        node.itemType = some "object" ∧ node.type = some "array" ∧
        node.path = path ∧ node.required = r := by
  intro key prop path r it ps sf hitems hty hprops hparse
  obtain ⟨s, oo, items, pp, rr⟩ := prop
  simp only [AirbyteProperty.items] at hitems
  subst hitems
  obtain ⟨is1, io, ii, iprops, ireq⟩ := it
  simp only [AirbyteProperty.scalars] at hty
  simp only [AirbyteProperty.properties] at hprops
  subst hprops
  simp only [AirbyteProperty.required] at hparse
  simp only [parseArrayField, hty, hparse, Option.isSome_some, Bool.and_self,
    beq_self_eq_true, if_true]
  refine ⟨_, rfl, ?_⟩
  simp [buildArrayField, FormField.itemType, FormField.subFields, FormField.type,
    FormField.path, FormField.required, FormField.scalars, AirbyteProperty.scalars,
    AirbyteProperty.items, jsOr, hty]

theorem parseBasicField_path (key : String) (prop : AirbyteProperty) (path : List String)
    (r : Bool) : (parseBasicField key prop path r).path = path := rfl

theorem parseBasicField_default (key : String) (prop : AirbyteProperty) (path : List String)
    (r : Bool) : (parseBasicField key prop path r).default = prop.scalars.default := rfl

/-- Every successful `parseArrayField` returns a `buildArrayField` record
(for some subfield list). -/
theorem parseArrayField_ok_build :
    ∀ {key : String} {prop : AirbyteProperty} {path : List String} {r : Bool}
      {node : FormField},
      parseArrayField key prop path r = .ok node →
      ∃ sfs, node = buildArrayField key prop path r sfs := by
  intro key prop path r node h
  obtain ⟨s, oo, items, pp, rr⟩ := prop
  rw [parseArrayField.eq_def] at h
  split at h
  all_goals try split at h
  all_goals try split at h
  all_goals try split at h
  all_goals try split at h
  all_goals first
    | (simp only [Except.ok.injEq] at h; exact ⟨_, h.symm⟩)
    | simp at h

theorem buildArrayField_path (key : String) (prop : AirbyteProperty) (path : List String)
    (r : Bool) (sfs : List FormField) :
    (buildArrayField key prop path r sfs).path = path := rfl

theorem buildArrayField_default (key : String) (prop : AirbyteProperty) (path : List String)
    (r : Bool) (sfs : List FormField) :
    (buildArrayField key prop path r sfs).default = some
      (match prop.scalars.default with
       | some v => if jsTruthy v then v else Json.arr []
       | none => Json.arr []) := rfl

/-- Path–depth invariant: every field emitted at a traversal level strictly
extends that level's path prefix, so the spliced fields of a transparent
object live strictly below it and no wrapper node for the object exists. -/
theorem parse_path_invariant :
    ∀ n : Nat,
      (∀ (entries : List (String × AirbyteProperty)) (pp req : List String)
        (fs : List FormField), sizeOf entries ≤ n →
        parseProperties entries pp req = .ok fs →
        ∀ f ∈ fs, f.path.take pp.length = pp ∧ pp.length < f.path.length) ∧
      (∀ (key : String) (prop : AirbyteProperty) (pp req : List String)
        (nf : List FormField), sizeOf prop ≤ n →
        parsePropStep key prop pp req = .ok nf →
        ∀ f ∈ nf, f.path.take pp.length = pp ∧ pp.length < f.path.length) := by
  intro n
  induction n using Nat.strong_induction_on with
  | _ n ih =>
  have hbase : ∀ (pp : List String) (key : String),
      (pp ++ [key]).take pp.length = pp ∧ pp.length < (pp ++ [key]).length := by
    intro pp key
    refine ⟨List.take_left pp [key], by simp⟩
  constructor
  · intro entries pp req fs hsz hp f hf
    cases entries with
    | nil =>
      simp only [parseProperties, Except.ok.injEq] at hp
      subst hp
      simp at hf
    | cons e rest =>
      obtain ⟨key, prop⟩ := e
      have hszp : sizeOf prop < n := by
        have h2 : sizeOf prop < sizeOf ((key, prop) :: rest) := by
          simp
          omega
        omega
      have hszr : sizeOf rest < n := by
        have h2 : sizeOf rest < sizeOf ((key, prop) :: rest) := by
          simp
          try omega
        omega
      simp only [parseProperties] at hp
      cases hS : parsePropStep key prop pp req with
      | error e2 =>
        rw [hS] at hp
        simp at hp
      | ok nf =>
        rw [hS] at hp
        cases hR : parseProperties rest pp req with
        | error e2 =>
          rw [hR] at hp
          simp at hp
        | ok fs2 =>
          rw [hR] at hp
          simp only [Except.ok.injEq] at hp
          subst hp
          rcases List.mem_append.mp hf with hf1 | hf2
          · exact (ih (sizeOf prop) hszp).2 key prop pp req nf le_rfl hS f hf1
          · exact (ih (sizeOf rest) hszr).1 rest pp req fs2 le_rfl hR f hf2
  · intro key prop pp req nf hsz hs f hf
    obtain ⟨s, oo, items, props, preq⟩ := prop
    by_cases hhid : s.airbyte_hidden = true
    · simp only [parsePropStep, hhid, if_true, Except.ok.injEq] at hs
      subst hs
      simp at hf
    · cases oo with
      | some opts =>
        simp only [parsePropStep, hhid, Bool.false_eq_true, if_false] at hs
        cases hF : parseOneOfField key (AirbyteProperty.mk s (some opts) items props preq)
            (pp ++ [key]) (req.contains key) with
        | error e2 =>
          rw [hF] at hs
          simp at hs
        | ok fld =>
          rw [hF] at hs
          simp only [Except.ok.injEq] at hs
          subst hs
          rcases List.mem_singleton.mp hf with rfl
          obtain ⟨st, _, hpath, _⟩ := parseOneOfField_ok_shape hF
          rw [hpath]
          exact hbase pp key
      | none =>
        by_cases harr : (s.type == some "array" && items.isSome) = true
        · simp only [parsePropStep, hhid, harr, Bool.false_eq_true, if_false, if_true] at hs
          cases hA : parseArrayField key (AirbyteProperty.mk s none items props preq)
              (pp ++ [key]) (req.contains key) with
          | error e2 =>
            rw [hA] at hs
            simp at hs
          | ok fld =>
            rw [hA] at hs
            simp only [Except.ok.injEq] at hs
            subst hs
            rcases List.mem_singleton.mp hf with rfl
            obtain ⟨sfs, rfl⟩ := parseArrayField_ok_build hA
            rw [buildArrayField_path]
            exact hbase pp key
        · by_cases hobj : (s.type == some "object" && props.isSome) = true
          · simp only [parsePropStep, hhid, harr, hobj, Bool.false_eq_true, if_false,
              if_true] at hs
            cases props with
            | none => simp at hobj
            | some ps =>
              have hszps : sizeOf ps < n := by
                have h2 : sizeOf ps <
                    sizeOf (AirbyteProperty.mk s none items (some ps) preq) := by
                  simp
                  omega
                omega
              have hrec := (ih (sizeOf ps) hszps).1 ps (pp ++ [key]) (preq.getD []) nf
                le_rfl hs f hf
              obtain ⟨htake, hlen⟩ := hrec
              constructor
              · have h1 : f.path.take pp.length
                    = (f.path.take (pp ++ [key]).length).take pp.length := by
                  rw [List.take_take]
                  congr 1
                  simp
                  try omega
                rw [h1, htake]
                exact List.take_left pp [key]
              · simp at hlen
                try omega
          · simp only [parsePropStep, hhid, harr, hobj, Bool.false_eq_true, if_false,
              Except.ok.injEq] at hs
            subst hs
            rcases List.mem_singleton.mp hf with rfl
            rw [parseBasicField_path]
            exact hbase pp key

/-- If the variant loop succeeds, `parseOneOfField` succeeds. -/
theorem parseOneOfField_ok_of_loop :
    ∀ {key : String} {prop : AirbyteProperty} {path : List String} {r : Bool}
      {opts : List AirbyteProperty}
      {st : Option String × List ConstOption × List FormField},
      prop.oneOf = some opts →
      parseOneOfLoop opts path none [] [] = .ok st →
      ∃ fld, parseOneOfField key prop path r = .ok fld := by
  intro key prop path r opts st hoo hst
  obtain ⟨s, oo, ii, pp2, rr⟩ := prop
  simp only [AirbyteProperty.oneOf] at hoo
  subst hoo
  cases hF : parseOneOfField key (AirbyteProperty.mk s (some opts) ii pp2 rr) path r with
  | ok fld => exact ⟨fld, rfl⟩
  | error e =>
    rw [parseOneOfField] at hF
    rw [hst] at hF
    simp [Bind.bind, Except.bind] at hF

/-- Wellformedness is sufficient for the parse to succeed: if no traversed
oneOf variant lacks its `properties` mapping, no branch of the traversal
throws. -/
theorem parse_ok_of_okPred :
    ∀ n : Nat,
      (∀ (entries : List (String × AirbyteProperty)) (pp req : List String),
        sizeOf entries ≤ n → okProperties entries = true →
        ∃ fs, parseProperties entries pp req = .ok fs) ∧
      (∀ (key : String) (prop : AirbyteProperty) (pp req : List String),
        sizeOf prop ≤ n → okProperty prop = true →
        ∃ nf, parsePropStep key prop pp req = .ok nf) ∧
      (∀ (opts : List AirbyteProperty) (path : List String) (ck : Option String)
        (co : List ConstOption) (sf : List FormField),
        sizeOf opts ≤ n → okOptions opts = true →
        ∃ st, parseOneOfLoop opts path ck co sf = .ok st) ∧
      (∀ (entries : List (String × AirbyteProperty)) (k : String) (v : Json)
        (path oreq : List String),
        sizeOf entries ≤ n → okVariantProps entries k = true →
        ∃ fs, parseVariantProps entries k v path oreq = .ok fs) := by
  intro n
  induction n using Nat.strong_induction_on with
  | _ n ih =>
  refine ⟨?_, ?_, ?_, ?_⟩
  · intro entries pp req hsz hok
    cases entries with
    | nil => exact ⟨[], by simp [parseProperties]⟩
    | cons e rest =>
      obtain ⟨key, prop⟩ := e
      have hszp : sizeOf prop < n := by
        have h2 : sizeOf prop < sizeOf ((key, prop) :: rest) := by
          simp
          try omega
        omega
      have hszr : sizeOf rest < n := by
        have h2 : sizeOf rest < sizeOf ((key, prop) :: rest) := by
          simp
          try omega
        omega
      simp only [okProperties, Bool.and_eq_true] at hok
      obtain ⟨hok1, hok2⟩ := hok
      obtain ⟨nf, hnf⟩ := (ih (sizeOf prop) hszp).2.1 key prop pp req le_rfl hok1
      obtain ⟨fs2, hfs2⟩ := (ih (sizeOf rest) hszr).1 rest pp req le_rfl hok2
      exact ⟨nf ++ fs2, by simp [parseProperties, hnf, hfs2]⟩
  · intro key prop pp req hsz hok
    obtain ⟨s, oo, items, props, preq⟩ := prop
    by_cases hhid : s.airbyte_hidden = true
    · exact ⟨[], by simp [parsePropStep, hhid]⟩
    · cases oo with
      | some opts =>
        simp only [okProperty, hhid, Bool.false_eq_true, if_false] at hok
        have hszo : sizeOf opts < n := by
          have h2 : sizeOf opts <
              sizeOf (AirbyteProperty.mk s (some opts) items props preq) := by
            simp
            try omega
          omega
        obtain ⟨st, hst⟩ := (ih (sizeOf opts) hszo).2.2.1 opts (pp ++ [key]) none [] []
          le_rfl hok
        obtain ⟨fld, hfld⟩ := @parseOneOfField_ok_of_loop key
          (AirbyteProperty.mk s (some opts) items props preq) (pp ++ [key])
          (req.contains key) opts st rfl hst
        refine ⟨[fld], ?_⟩
        rw [parsePropStep.eq_def]
        simp only [hhid, Bool.false_eq_true, if_false]
        rw [hfld]
      | none =>
        by_cases harr : (s.type == some "array" && items.isSome) = true
        · cases items with
          | none => simp at harr
          | some it =>
            obtain ⟨is1, io, ii, iprops, ireq⟩ := it
            by_cases hobjit : (is1.type == some "object" && iprops.isSome) = true
            · cases iprops with
              | none => simp at hobjit
              | some ps =>
                rw [okProperty.eq_def] at hok
                simp only [hhid, Bool.false_eq_true, if_false, harr, if_true,
                  hobjit] at hok
                have hszps : sizeOf ps < n := by
                  have h2 : sizeOf ps < sizeOf (AirbyteProperty.mk s none
                      (some (AirbyteProperty.mk is1 io ii (some ps) ireq)) props preq) := by
                    simp
                    try omega
                  omega
                obtain ⟨sf, hsf⟩ := (ih (sizeOf ps) hszps).1 ps (pp ++ [key] ++ ["0"])
                  (ireq.getD []) le_rfl hok
                cases hA : parseArrayField key (AirbyteProperty.mk s none
                    (some (AirbyteProperty.mk is1 io ii (some ps) ireq)) props preq)
                    (pp ++ [key]) (req.contains key) with
                | ok fld =>
                  refine ⟨[fld], ?_⟩
                  rw [parsePropStep.eq_def]
                  simp only [hhid, Bool.false_eq_true, if_false, harr, if_true]
                  rw [hA]
                | error e =>
                  exfalso
                  rw [parseArrayField.eq_def] at hA
                  simp only [hobjit, if_true, hsf] at hA
                  simp at hA
            · cases hA : parseArrayField key (AirbyteProperty.mk s none
                  (some (AirbyteProperty.mk is1 io ii iprops ireq)) props preq)
                  (pp ++ [key]) (req.contains key) with
              | ok fld =>
                refine ⟨[fld], ?_⟩
                rw [parsePropStep.eq_def]
                simp only [hhid, Bool.false_eq_true, if_false, harr, if_true]
                rw [hA]
              | error e =>
                exfalso
                rw [parseArrayField.eq_def] at hA
                simp only [hobjit, Bool.false_eq_true, if_false] at hA
                simp at hA
        · by_cases hobj : (s.type == some "object" && props.isSome) = true
          · cases props with
            | none => simp at hobj
            | some ps =>
              rw [okProperty.eq_def] at hok
              simp only [hhid, Bool.false_eq_true, if_false, harr, hobj,
                if_true] at hok
              have hszps : sizeOf ps < n := by
                have h2 : sizeOf ps <
                    sizeOf (AirbyteProperty.mk s none items (some ps) preq) := by
                  simp
                  try omega
                omega
              obtain ⟨nested, hnested⟩ := (ih (sizeOf ps) hszps).1 ps (pp ++ [key])
                (preq.getD []) le_rfl hok
              refine ⟨nested, ?_⟩
              rw [parsePropStep.eq_def]
              simp only [hhid, Bool.false_eq_true, if_false, harr, hobj, if_true]
              exact hnested
          · refine ⟨[parseBasicField key (AirbyteProperty.mk s none items props preq)
              (pp ++ [key]) (req.contains key)], ?_⟩
            rw [parsePropStep.eq_def]
            simp only [hhid, Bool.false_eq_true, if_false, harr, hobj]
  · intro opts path ck co sf hsz hok
    cases opts with
    | nil => exact ⟨(ck, co, sf), by simp [parseOneOfLoop]⟩
    | cons o rest =>
      obtain ⟨os, oo, oi, oprops, oreq⟩ := o
      have hszr : sizeOf rest < n := by
        have h2 : sizeOf rest <
            sizeOf (AirbyteProperty.mk os oo oi oprops oreq :: rest) := by
          simp
          try omega
        omega
      cases oprops with
      | none => simp [okOptions] at hok
      | some props =>
        simp only [okOptions, Bool.and_eq_true] at hok
        obtain ⟨hok1, hok2⟩ := hok
        cases hfc : findConstEntry props with
        | none =>
          obtain ⟨st, hst⟩ := (ih (sizeOf rest) hszr).2.2.1 rest path ck co sf
            le_rfl hok2
          exact ⟨st, by simp [parseOneOfLoop, hfc, hst]⟩
        | some kv =>
          obtain ⟨fk, cv⟩ := kv
          rw [hfc] at hok1
          have hszps : sizeOf props < n := by
            have h2 : sizeOf props <
                sizeOf (AirbyteProperty.mk os oo oi (some props) oreq :: rest) := by
              simp
              try omega
            omega
          obtain ⟨subs, hsubs⟩ := (ih (sizeOf props) hszps).2.2.2 props fk cv path
            (oreq.getD []) le_rfl hok1
          obtain ⟨st, hst⟩ := (ih (sizeOf rest) hszr).2.2.1 rest path
            (if optStrTruthy ck then ck else some fk)
            (co ++ [{ value := cv
                      title := match os.title with
                        | some t => if t != "" then Json.str t else cv
                        | none => cv
                      description := os.description }])
            (sf ++ subs) le_rfl hok2
          refine ⟨st, ?_⟩
          simp only [parseOneOfLoop, hfc, Bind.bind]
          rw [hsubs]
          simp only [Except.bind]
          exact hst
  · intro entries k v path oreq hsz hok
    cases entries with
    | nil => exact ⟨[], by simp [parseVariantProps]⟩
    | cons e rest =>
      obtain ⟨pk, pd⟩ := e
      have hszr : sizeOf rest < n := by
        have h2 : sizeOf rest < sizeOf ((pk, pd) :: rest) := by
          simp
          try omega
        omega
      rw [okVariantProps.eq_def] at hok
      simp only [Bool.and_eq_true] at hok
      obtain ⟨hok1, hok2⟩ := hok
      obtain ⟨rfs, hrfs⟩ := (ih (sizeOf rest) hszr).2.2.2 rest k v path oreq
        le_rfl hok2
      by_cases hk : (pk == k) = true
      · exact ⟨rfs, by simp [parseVariantProps, hk, hrfs]⟩
      · obtain ⟨s2, oo2, ii2, pp2, rr2⟩ := pd
        cases oo2 with
        | some opts =>
          rw [if_neg hk] at hok1
          have hszo : sizeOf opts < n := by
            have h2 : sizeOf opts <
                sizeOf ((pk, AirbyteProperty.mk s2 (some opts) ii2 pp2 rr2) :: rest) := by
              simp
              try omega
            omega
          obtain ⟨st, hst⟩ := (ih (sizeOf opts) hszo).2.2.1 opts (path ++ [pk])
            none [] [] le_rfl hok1
          obtain ⟨fld, hfld⟩ := @parseOneOfField_ok_of_loop pk
            (AirbyteProperty.mk s2 (some opts) ii2 pp2 rr2) (path ++ [pk])
            (oreq.contains pk) opts st rfl hst
          refine ⟨setParentAndId fld v
            (joinDot path ++ "." ++ jsToString v ++ "." ++ pk) :: rfs, ?_⟩
          rw [parseVariantProps.eq_def]
          simp only [if_neg hk, Bind.bind]
          rw [hfld]
          simp only [Except.bind]
          rw [hrfs]
        | none =>
          refine ⟨setParentAndId (parseBasicField pk
            (AirbyteProperty.mk s2 none ii2 pp2 rr2) (path ++ [pk]) (oreq.contains pk)) v
            (joinDot path ++ "." ++ jsToString v ++ "." ++ pk) :: rfs, ?_⟩
          rw [parseVariantProps.eq_def]
          simp only [if_neg hk, Bind.bind, Except.bind]
          rw [hrfs]

theorem parseProperties_nil (pp req : List String) :
    parseProperties [] pp req = .ok [] := by
  simp [parseProperties]

theorem parseProperties_cons (key : String) (prop : AirbyteProperty)
    (rest : List (String × AirbyteProperty)) (pp req : List String) :
    parseProperties ((key, prop) :: rest) pp req =
      match parsePropStep key prop pp req, parseProperties rest pp req with
      | .ok nf, .ok fs => .ok (nf ++ fs)
      | .error e, _ => .error e
      | _, .error e => .error e := by
  cases hS : parsePropStep key prop pp req <;>
    cases hR : parseProperties rest pp req <;>
    simp [parseProperties, hS, hR]

/-! The claims. -/

/-- Claim C3 (confirmed): the sibling-field comparator orders two fields by
ascending explicit `order` when both carry one; a field with an explicit
`order` sorts before one without; with neither, required sorts before
optional and ties fall back to lexical comparison of the final path
segment.  The two concrete examples of the claim: orderless siblings
host (required), port (optional), dbname (required) sort as dbname, host,
port; and a field with order 1 and required false sorts before a field
with no order and required true. -/
theorem C3_comparator_rules :
    (∀ (a b : FormField) (ao bo : Int), a.order = some ao → b.order = some bo →
      airbyteCompare a b = ao - bo) ∧
    (∀ (a b : FormField) (ao : Int), a.order = some ao → b.order = none →
      airbyteCompare a b = -1) ∧
    (∀ (a b : FormField) (bo : Int), a.order = none → b.order = some bo →
      airbyteCompare a b = 1) ∧
    (∀ a b : FormField, a.order = none → b.order = none →
      a.required = true → b.required = false → airbyteCompare a b = -1) ∧
    (∀ a b : FormField, a.order = none → b.order = none →
      a.required = b.required →
      airbyteCompare a b = localeCompare (lastPathSegment a) (lastPathSegment b)) ∧
    (sortFieldsByAirbyteRules
      [exLeafField "host" true none, exLeafField "port" false none,
       exLeafField "dbname" true none] =
      [exLeafField "dbname" true none, exLeafField "host" true none,
       exLeafField "port" false none]) ∧
    (sortFieldsByAirbyteRules
      [exLeafField "noorder" true none, exLeafField "o1" false (some 1)] =
      [exLeafField "o1" false (some 1), exLeafField "noorder" true none]) := by
  refine ⟨?_, ?_, ?_, ?_, ?_, rfl, rfl⟩
  · intro a b ao bo h1 h2
    simp [airbyteCompare, h1, h2]
  · intro a b ao h1 h2
    simp [airbyteCompare, h1, h2]
  · intro a b bo h1 h2
    simp [airbyteCompare, h1, h2]
  · intro a b h1 h2 hr1 hr2
    simp [airbyteCompare, h1, h2, hr1, hr2]
  · intro a b h1 h2 hr
    cases hra : a.required <;>
      simp [airbyteCompare, h1, h2, hra, hr ▸ hra]

/-- Witness for C3 at concrete fields. -/
theorem C3_witness :
    airbyteCompare (exLeafField "a" false (some 5)) (exLeafField "b" true (some 3)) = 5 - 3 ∧
    airbyteCompare (exLeafField "a" false (some 1)) (exLeafField "b" true none) = -1 ∧
    airbyteCompare (exLeafField "dbname" true none) (exLeafField "host" true none) =
      localeCompare "dbname" "host" := by
  refine ⟨C3_comparator_rules.1 _ _ 5 3 rfl rfl,
    C3_comparator_rules.2.1 _ _ 1 rfl rfl, ?_⟩
  exact C3_comparator_rules.2.2.2.2.1 _ _ rfl rfl rfl

/-- Claim C8 (confirmed): the transformation is deterministic — the result
of `parseAirbyteSpec` depends only on the input schema document, so
structurally identical inputs produce structurally identical outputs. -/
theorem C8_deterministic :
    ∀ s1 s2 : AirbyteSpec, s1 = s2 → parseAirbyteSpec s1 = parseAirbyteSpec s2 := by
  intro s1 s2 h
  rw [h]

/-- Witness for C8 at a concrete schema. -/
theorem C8_witness : parseAirbyteSpec exPlainSpec = parseAirbyteSpec exPlainSpec :=
  C8_deterministic exPlainSpec exPlainSpec rfl

/-- Claim C10 (confirmed): an array property whose item schema declares no
`default` (or a falsy one) gets the empty list as its node's `default`,
while a leaf field with no declared `default` keeps it absent. -/
theorem C10_default_values :
    (∀ (key : String) (prop : AirbyteProperty) (path : List String) (r : Bool)
      (node : FormField), prop.scalars.default = none →
      parseArrayField key prop path r = .ok node →
      node.default = some (Json.arr [])) ∧
    (∀ (key : String) (prop : AirbyteProperty) (path : List String) (r : Bool)
      (node : FormField) (v : Json), prop.scalars.default = some v →
      jsTruthy v = false →
      parseArrayField key prop path r = .ok node →
      node.default = some (Json.arr [])) ∧
    (∀ (key : String) (prop : AirbyteProperty) (path : List String) (r : Bool),
      prop.scalars.default = none →
      (parseBasicField key prop path r).default = none) := by
  refine ⟨?_, ?_, ?_⟩
  · intro key prop path r node hd h
    obtain ⟨sfs, rfl⟩ := parseArrayField_ok_build h
    rw [buildArrayField_default, hd]
  · intro key prop path r node v hd hv h
    obtain ⟨sfs, rfl⟩ := parseArrayField_ok_build h
    rw [buildArrayField_default, hd]
    simp [hv]
  · intro key prop path r hd
    rw [parseBasicField_default, hd]

/-- Witness for C10: a string-items array with no declared default gets
default `[]`; a basic string property with no declared default keeps none. -/
theorem C10_witness :
    (buildArrayField "tags" exPrimArrayProp ["tags"] false []).default =
      some (Json.arr []) ∧
    (parseBasicField "host" (AirbyteProperty.mk { type := some "string" }
      none none none none) ["host"] false).default = none := by
  constructor
  · have hA : parseArrayField "tags" exPrimArrayProp ["tags"] false =
        .ok (buildArrayField "tags" exPrimArrayProp ["tags"] false []) := by
      rw [parseArrayField.eq_def]
      simp [exPrimArrayProp]
    exact C10_default_values.1 "tags" exPrimArrayProp ["tags"] false _ rfl hA
  · exact C10_default_values.2.2 "host" _ ["host"] false rfl

/-- Claim C7 (confirmed): an array property with a primitive item type
yields an array node whose `itemType` is the declared item type and whose
subfield list is empty; an array property with object-shaped items yields
an array node whose subfields are the item properties parsed under the
index-placeholder segment with the item's own required set, sorted by the
sibling rules. -/
theorem C7_array_items :
    (∀ (key : String) (prop : AirbyteProperty) (path : List String) (r : Bool)
      (it : AirbyteProperty) (t : String),
      prop.items = some it → it.scalars.type = some t → t ≠ "object" → t ≠ "" →
      ∃ node, parseArrayField key prop path r = .ok node ∧
        node.itemType = some t ∧ node.subFields = some [] ∧
        node.type = some "array") ∧
    (∀ (key : String) (prop : AirbyteProperty) (path : List String) (r : Bool)
      (it : AirbyteProperty) (ps : List (String × AirbyteProperty))
      (sf : List FormField),
      prop.items = some it → it.scalars.type = some "object" →
      it.properties = some ps →
      parseProperties ps (path ++ ["0"]) (it.required.getD []) = .ok sf →
      ∃ node, parseArrayField key prop path r = .ok node ∧
        node.subFields = some (sortFieldsByAirbyteRules sf) ∧
        node.itemType = some "object" ∧ node.type = some "array") := by
  constructor
  · intro key prop path r it t hit hty hne hne2
    obtain ⟨node, hnode, hitem, hsub, htype, _, _⟩ :=
      @parseArrayField_primitive key prop path r it t hit hty hne
    refine ⟨node, hnode, ?_, hsub, htype⟩
    rw [hitem]
    simp [jsOr, hne2]
  · intro key prop path r it ps sf hit hty hprops hparse
    obtain ⟨node, hnode, hsub, hitem, htype, _, _⟩ :=
      @parseArrayField_object key prop path r it ps sf hit hty hprops hparse
    exact ⟨node, hnode, hsub, hitem, htype⟩

/-- Witness for C7 at concrete array properties. -/
theorem C7_witness :
    (parseArrayField "tags" exPrimArrayProp ["tags"] false).map
      (fun n => (n.itemType, n.subFields)) = .ok (some "string", some []) ∧
    (parseArrayField "rows" exObjArrayProp ["rows"] false).map
      (fun n => (n.itemType, n.subFields.map (fun l => l.map (fun f => f.id)))) =
      .ok (some "object", some ["rows.0.y", "rows.0.z"]) := by
  constructor
  · obtain ⟨node, hnode, h1, h2, _⟩ := C7_array_items.1 "tags" exPrimArrayProp ["tags"]
      false _ "string" rfl rfl (by decide) (by decide)
    rw [hnode]
    simp [Except.map, h1, h2]
  · have hparse : parseProperties
        [("y", AirbyteProperty.mk { type := some "string" } none none none none),
         ("z", AirbyteProperty.mk { type := some "number" } none none none none)]
        (["rows"] ++ ["0"]) ["y"] =
        .ok [parseBasicField "y" (AirbyteProperty.mk { type := some "string" }
               none none none none) ["rows", "0", "y"] true,
             parseBasicField "z" (AirbyteProperty.mk { type := some "number" }
               none none none none) ["rows", "0", "z"] false] := by
      simp [parseProperties_cons, parseProperties_nil, parsePropStep.eq_def]
      try rfl
    obtain ⟨node, hnode, h1, h2, _⟩ := C7_array_items.2 "rows" exObjArrayProp ["rows"]
      false _ _ _ rfl rfl rfl hparse
    rw [hnode]
    simp [Except.map, h1, h2]
    rfl

/-- Claim C1 (counterexample): the claim states that no property whose
`airbyte_hidden` flag is set appears anywhere in the output, including as a
non-discriminant property of a oneOf variant.  But `parseOneOfField`'s
variant loop performs no hidden check: the hidden variant property
`secretfield` of `cxHiddenVariant` is emitted as a subfield (with its
hidden flag merely recorded), and it survives to the final output of
`parseAirbyteSpec`. -/
theorem C1_counterexample :
    cxHiddenLeaf.scalars.airbyte_hidden = true ∧
    subFieldHiddenIds (parseOneOfField "conn" cxHiddenOneOf ["conn"] false) =
      [("conn.x.secretfield", true)] ∧
    groupsSubHidden (parseAirbyteSpec cxHiddenSpec) = [("conn.x.secretfield", true)] := by
  refine ⟨rfl, rfl, ?_⟩
  simp [groupsSubHidden, parseAirbyteSpec, cxHiddenSpec, parseProperties_cons,
    parseProperties_nil, parsePropStep.eq_def, cxHiddenOneOf, Bind.bind, Except.bind]
  try rfl

/-- Claim C1 (amended): a property whose `airbyte_hidden` flag is set is
elided, together with all its descendants, at every level walked by
`parseProperties` (the top level, transparently flattened objects, and
array item objects) — the traversal of the remaining siblings is exactly
the traversal without the hidden entry.  Hidden non-discriminant
properties of oneOf variants, however, are not elided (see the
counterexample). -/
theorem C1_hidden_elided :
    ∀ (key : String) (prop : AirbyteProperty) (rest : List (String × AirbyteProperty))
      (pp req : List String),
      prop.scalars.airbyte_hidden = true →
      parseProperties ((key, prop) :: rest) pp req = parseProperties rest pp req := by
  intro key prop rest pp req h
  obtain ⟨s, oo, ii, ps, rr⟩ := prop
  simp only [AirbyteProperty.scalars] at h
  have hstep : parsePropStep key (AirbyteProperty.mk s oo ii ps rr) pp req = .ok [] := by
    rw [parsePropStep.eq_def]
    simp [h]
  cases hR : parseProperties rest pp req with
  | ok fs => simp [parseProperties, hstep, hR]
  | error e => simp [parseProperties, hstep, hR]

/-- Witness for C1 at a concrete hidden property. -/
theorem C1_witness :
    parseProperties [("h1", cxHiddenLeaf), ("host", AirbyteProperty.mk
      { type := some "string" } none none none none)] [] [] =
    parseProperties [("host", AirbyteProperty.mk
      { type := some "string" } none none none none)] [] [] :=
  C1_hidden_elided "h1" cxHiddenLeaf _ [] [] rfl

/-- Claim C2 (counterexample): the claim states that the only raising input
is a root document without `properties`, and that a oneOf variant whose own
`properties` mapping is absent still degrades gracefully.  But
`cxNoPropsVariantSpec` has a root `properties` mapping, and its single
oneOf variant without `properties` makes the whole parse throw (the
source's `Object.entries(option.properties)`). -/
theorem C2_counterexample :
    cxNoPropsVariantSpec.properties.isSome = true ∧
    parseAirbyteSpec cxNoPropsVariantSpec = .error jsTypeError := by
  refine ⟨rfl, ?_⟩
  simp [parseAirbyteSpec, cxNoPropsVariantSpec, parseProperties_cons,
    parseProperties_nil, parsePropStep.eq_def, Bind.bind, Except.bind]
  try rfl

/-- Claim C2 (amended): `parseAirbyteSpec` raises exactly in two
situations: a root document without `properties` raises the
`Object.entries` TypeError before any field is built, and a traversed
oneOf variant without its own `properties` mapping raises the same
TypeError mid-traversal.  For every input free of the latter defect
(`okProperties`), the parse returns groups: all other malformed nodes
(a variant without a discriminant, an array without an item schema)
degrade gracefully instead of raising. -/
theorem C2_error_characterization :
    (∀ spec : AirbyteSpec, spec.properties = none →
      parseAirbyteSpec spec = .error jsTypeError) ∧
    (∀ (spec : AirbyteSpec) (ps : List (String × AirbyteProperty)),
      spec.properties = some ps → okProperties ps = true →
      ∃ gs, parseAirbyteSpec spec = .ok gs) := by
  constructor
  · intro spec h
    obtain ⟨sp, sr, sg⟩ := spec
    simp only at h
    subst h
    rfl
  · intro spec ps h hok
    obtain ⟨sp, sr, sg⟩ := spec
    simp only at h
    subst h
    obtain ⟨fs, hfs⟩ := (parse_ok_of_okPred (sizeOf ps)).1 ps [] (sr.getD []) le_rfl hok
    cases sg with
    | none =>
      exact ⟨[{ id := "default", title := none,
                fields := sortFieldsByAirbyteRules fs }],
        by simp [parseAirbyteSpec, hfs, Bind.bind, Except.bind]⟩
    | some gs =>
      exact ⟨gs.map (fun group =>
          { id := group.id
            title := group.title
            fields := sortFieldsByAirbyteRules
              (fs.filter (fun field => field.group == some group.id)) }),
        by simp [parseAirbyteSpec, hfs, Bind.bind, Except.bind]⟩

/-- Witness for C2: the missing-root-properties raise, and a successful
parse of a wellformed concrete schema. -/
theorem C2_witness :
    parseAirbyteSpec { properties := none } = .error jsTypeError ∧
    (∃ gs, parseAirbyteSpec exPlainSpec = .ok gs) := by
  constructor
  · exact C2_error_characterization.1 { properties := none } rfl
  · refine C2_error_characterization.2 exPlainSpec _ rfl ?_
    simp [okProperties.eq_def, okProperty.eq_def]

/-- Claim C4 (confirmed): every non-discriminant subfield produced for a
oneOf variant gets id `{path}.{discriminantValue}.{propertyKey}`, so two
variants of the same oneOf that each expose a property with the same name
receive distinct ids — concretely, variants `verify-ca` and `disable` each
exposing `password` under path `ssl_mode` yield the distinct ids
`ssl_mode.verify-ca.password` and `ssl_mode.disable.password`. -/
theorem C4_variant_subfield_ids :
    (∀ (entries : List (String × AirbyteProperty)) (k : String) (v : Json)
      (path : List String) (oreq : List String) (fs : List FormField),
      parseVariantProps entries k v path oreq = .ok fs →
      ∀ f ∈ fs, ∃ pk pd, (pk, pd) ∈ entries ∧ (pk == k) = false ∧
        f.id = joinDot path ++ "." ++ jsToString v ++ "." ++ pk) ∧
    subFieldIds (parseOneOfField "ssl_mode" sslModeOneOf ["ssl_mode"] false) =
      ["ssl_mode.verify-ca.password", "ssl_mode.disable.password"] ∧
    ("ssl_mode.verify-ca.password" == "ssl_mode.disable.password") = false := by
  refine ⟨?_, rfl, by decide⟩
  intro entries k v path oreq fs h f hf
  exact (parseVariantProps_fields entries k v path oreq fs h f hf).2

/-- Witness for C4 at the `disable` variant's properties. -/
theorem C4_witness :
    ∃ pk pd,
      (pk, pd) ∈ [("mode", AirbyteProperty.mk
          { type := some "string", const := some (Json.str "disable") } none none none none),
        ("password", AirbyteProperty.mk { type := some "string" } none none none none)] ∧
      (pk == "mode") = false ∧
      (setParentAndId (parseBasicField "password"
          (AirbyteProperty.mk { type := some "string" } none none none none)
          ["ssl_mode", "password"] false) (Json.str "disable")
          "ssl_mode.disable.password").id =
        joinDot ["ssl_mode"] ++ "." ++ jsToString (Json.str "disable") ++ "." ++ pk :=
  C4_variant_subfield_ids.1
    [("mode", AirbyteProperty.mk
        { type := some "string", const := some (Json.str "disable") } none none none none),
     ("password", AirbyteProperty.mk { type := some "string" } none none none none)]
    "mode" (Json.str "disable") ["ssl_mode"] []
    [setParentAndId (parseBasicField "password"
        (AirbyteProperty.mk { type := some "string" } none none none none)
        ["ssl_mode", "password"] false) (Json.str "disable")
        "ssl_mode.disable.password"]
    rfl
    (setParentAndId (parseBasicField "password"
        (AirbyteProperty.mk { type := some "string" } none none none none)
        ["ssl_mode", "password"] false) (Json.str "disable")
        "ssl_mode.disable.password")
    (List.mem_singleton.mpr rfl)

/-- Claim C9 (confirmed): a non-hidden property of type object with its own
properties and no oneOf is not materialized as a node of its own — its step
is exactly the recursive walk of its properties with the path extended by
its key and its own required set (spliced into the parent's sibling list by
`parseProperties`) — and every field emitted by a walk extends the walk's
path prefix strictly, so its path length equals its nesting depth. -/
theorem C9_object_flattening :
    (∀ (key : String) (s : PropScalars) (items : Option AirbyteProperty)
      (ps : List (String × AirbyteProperty)) (preq : Option (List String))
      (pp req : List String),
      s.airbyte_hidden = false → s.type = some "object" →
      parsePropStep key (.mk s none items (some ps) preq) pp req =
        parseProperties ps (pp ++ [key]) (preq.getD [])) ∧
    (∀ (entries : List (String × AirbyteProperty)) (pp req : List String)
      (fs : List FormField),
      parseProperties entries pp req = .ok fs →
      ∀ f ∈ fs, f.path.take pp.length = pp ∧ pp.length < f.path.length) := by
  constructor
  · intro key s items ps preq pp req hh ht
    rw [parsePropStep.eq_def]
    simp [hh, ht]
  · intro entries pp req fs h f hf
    exact (parse_path_invariant (sizeOf entries)).1 entries pp req fs le_rfl h f hf

/-- Witness for C9 at a concrete object property with two leaves. -/
theorem C9_witness :
    parsePropStep "cfg" exObjectProp [] [] =
      parseProperties
        [("u", AirbyteProperty.mk { type := some "string" } none none none none),
         ("w", AirbyteProperty.mk { type := some "string" } none none none none)]
        ["cfg"] ((some ["w"]).getD []) ∧
    ((parseBasicField "u" (AirbyteProperty.mk { type := some "string" } none none none none)
        ["cfg", "u"] false).path.take 1 = ["cfg"] ∧
      1 < (parseBasicField "u" (AirbyteProperty.mk { type := some "string" }
        none none none none) ["cfg", "u"] false).path.length) := by
  constructor
  · exact C9_object_flattening.1 "cfg" { type := some "object" } none
      [("u", AirbyteProperty.mk { type := some "string" } none none none none),
       ("w", AirbyteProperty.mk { type := some "string" } none none none none)]
      (some ["w"]) [] [] rfl rfl
  · exact C9_object_flattening.2
      [("u", AirbyteProperty.mk { type := some "string" } none none none none),
       ("w", AirbyteProperty.mk { type := some "string" } none none none none)]
      ["cfg"] ["w"]
      [parseBasicField "u" (AirbyteProperty.mk { type := some "string" } none none none none)
         ["cfg", "u"] false,
       parseBasicField "w" (AirbyteProperty.mk { type := some "string" } none none none none)
         ["cfg", "w"] true]
      (by
        simp [parseProperties_cons, parseProperties_nil, parsePropStep.eq_def]
        try rfl)
      (parseBasicField "u" (AirbyteProperty.mk { type := some "string" } none none none none)
         ["cfg", "u"] false)
      (by simp)

/-- Claim C6 (confirmed): without declared `groups` the output is one
implicit group `default` holding the whole sorted top-level list; with
declared `groups` the output is one group per declared group in schema
order, each holding the sorted fields whose `group` tag equals the group's
id, and every field placed in a group carries exactly that group's id (an
untagged or unmatched field lands in no group). -/
theorem C6_group_assembly :
    (∀ (props : List (String × AirbyteProperty)) (sr : Option (List String))
      (fs : List FormField),
      parseProperties props [] (sr.getD []) = .ok fs →
      parseAirbyteSpec { properties := some props, required := sr, groups := none } =
        .ok [{ id := "default", title := none,
               fields := sortFieldsByAirbyteRules fs }]) ∧
    (∀ (props : List (String × AirbyteProperty)) (sr : Option (List String))
      (fs : List FormField) (gs : List SpecGroup),
      parseProperties props [] (sr.getD []) = .ok fs →
      parseAirbyteSpec { properties := some props, required := sr, groups := some gs } =
        .ok (gs.map (fun group =>
          { id := group.id
            title := group.title
            fields := sortFieldsByAirbyteRules
              (fs.filter (fun field => field.group == some group.id)) }))) ∧
    (∀ (spec : AirbyteSpec) (gs : List SpecGroup) (res : List FieldGroup),
      spec.groups = some gs → parseAirbyteSpec spec = .ok res →
      ∀ gr ∈ res, ∀ f ∈ gr.fields, f.group = some gr.id) := by
  refine ⟨?_, ?_, ?_⟩
  · intro props sr fs h
    simp [parseAirbyteSpec, h, Bind.bind, Except.bind]
  · intro props sr fs gs h
    simp [parseAirbyteSpec, h, Bind.bind, Except.bind]
  · intro spec gs res hg h gr hgr f hf
    obtain ⟨sp, sr, sg⟩ := spec
    simp only at hg
    subst hg
    cases sp with
    | none =>
      have hE : parseAirbyteSpec ⟨none, sr, some gs⟩ = .error jsTypeError := rfl
      rw [hE] at h
      exact Except.noConfusion h
    | some props =>
      cases hfs : parseProperties props [] (sr.getD []) with
      | error e =>
        have hE : parseAirbyteSpec ⟨some props, sr, some gs⟩ = .error e := by
          simp [parseAirbyteSpec, hfs, Bind.bind, Except.bind]
        rw [hE] at h
        exact Except.noConfusion h
      | ok fs =>
        have hO : parseAirbyteSpec ⟨some props, sr, some gs⟩ =
            .ok (gs.map (fun group =>
              { id := group.id
                title := group.title
                fields := sortFieldsByAirbyteRules
                  (fs.filter (fun field => field.group == some group.id)) })) := by
          simp [parseAirbyteSpec, hfs, Bind.bind, Except.bind]
        rw [hO] at h
        have hres := Except.ok.inj h
        subst hres
        rw [List.mem_map] at hgr
        obtain ⟨g, hgmem, hgr2⟩ := hgr
        subst hgr2
        have hf2 : f ∈ sortFieldsByAirbyteRules
            (fs.filter (fun field => field.group == some g.id)) := hf
        simp only [sortFieldsByAirbyteRules] at hf2
        have hf3 := mem_stableSort.mp hf2
        have hbeq := (List.mem_filter.mp hf3).2
        exact eq_of_beq hbeq

/-- Witness for C6 at a schema with groups A and B and an untagged field:
the untagged field `c` lands in neither group. -/
theorem C6_witness :
    (parseAirbyteSpec exGroupedSpec).map
      (fun res => res.map (fun g => (g.id, g.fields.map (fun f => f.id)))) =
      .ok [("A", ["a"]), ("B", ["b"])] := by
  have h := C6_group_assembly.2.1
    [("a", AirbyteProperty.mk { type := some "string", group := some "A" } none none none none),
     ("b", AirbyteProperty.mk { type := some "string", group := some "B" } none none none none),
     ("c", AirbyteProperty.mk { type := some "string" } none none none none)]
    none
    [parseBasicField "a" (AirbyteProperty.mk { type := some "string", group := some "A" }
       none none none none) ["a"] false,
     parseBasicField "b" (AirbyteProperty.mk { type := some "string", group := some "B" }
       none none none none) ["b"] false,
     parseBasicField "c" (AirbyteProperty.mk { type := some "string" }
       none none none none) ["c"] false]
    [{ id := "A" }, { id := "B" }]
    (by
      simp [parseProperties_cons, parseProperties_nil, parsePropStep.eq_def]
      try rfl)
  simp only [exGroupedSpec]
  rw [h]
  rfl
